import Mathlib

/-!
A shallow embedding of `src/ambianic/webapp/server/timeline_dao.py`
(`get_timeline` and `_remove_timeline`).

Records are opaque to the engine: we model them by a type parameter `α`.
A segment file is a name plus its decoded content.  `yaml.safe_load`
either yields a Python list (constructor `records`), raises one of the
four exception classes caught at lines 83-88 (`ReaderError`,
`ScannerError`, `ComposerError`, `ConstructorError`; constructor
`decodeErrCaught`), raises an exception outside that tuple such as
`yaml.parser.ParserError` (constructor `decodeErrUncaught`), or
succeeds with a non-list value (scalar / mapping / `None`), in which
case `timeline_events += events_queue` raises an uncaught `TypeError`
(constructor `nonList`).
-/

inductive Content (α : Type) where
  | records (events : List α)
  | decodeErrCaught
  | decodeErrUncaught
  | nonList
  deriving DecidableEq

/-- One file of the data directory: its name and what decoding it yields. -/
structure StoredFile (α : Type) where
  name : String
  content : Content α
  deriving DecidableEq

/-- What a call to `get_timeline` does: the returned value (or the escaping
exception), the data directory contents after the call, and the file names
passed to `_remove_timeline`, in order. -/
inductive RetVal (α : Type) where
  | page (events : List α)
  | assertFailed
  | raised
  deriving DecidableEq

structure CallResult (α : Type) where
  ret : RetVal α
  data_dir : List (StoredFile α)
  deleted : List String
  deriving DecidableEq

variable {α : Type}

/-- `page_size = 5` (line 46). -/
def page_size : Int := 5

/-- Code-point lexicographic comparison of char lists: the order Python uses
on `str` (and on `Path` values within one directory). -/
def leChars : List Char → List Char → Bool
  | [], _ => true
  | _ :: _, [] => false
  | a :: as, b :: bs =>
    decide (a.toNat < b.toNat) || (decide (a.toNat = b.toNat) && leChars as bs)

/-- The glob pattern `./timeline-event-log.yaml*` (line 70): the file name
must start with the literal prefix. -/
def timelinePattern : List Char := "timeline-event-log.yaml".data

def startsWithChars : List Char → List Char → Bool
  | [], _ => true
  | _ :: _, [] => false
  | p :: ps, s :: ss => decide (p.toNat = s.toNat) && startsWithChars ps ss

def globMatch (f : StoredFile α) : Bool := startsWithChars timelinePattern f.name.data

/-- The order `sorted` uses on `Path` values of one directory: code-point
lexicographic comparison of the file names. -/
def fileLe (a b : StoredFile α) : Prop := leChars a.name.data b.name.data = true

instance : DecidableRel (fileLe (α := α)) :=
  fun a b => inferInstanceAs (Decidable (leChars a.name.data b.name.data = true))

/-- `sorted(files, reverse=False)` (line 71): ascending, stable.  Insertion
sort with a total preorder on names is extensionally the same stable sort. -/
def sortFiles (l : List (StoredFile α)) : List (StoredFile α) :=
  List.insertionSort fileLe l

/-- `_remove_timeline` (lines 12-16): `os.remove(file_path)` with all
exceptions swallowed, so removing an absent name is a no-op. -/
def remove_timeline (file_path : String) (dir : List (StoredFile α)) :
    List (StoredFile α) :=
  dir.filter (fun f => decide (f.name ≠ file_path))

/-- CPython's adjustment of a slice endpoint for a negative step
(`slice.indices`): negative indices count from the end, then both
endpoints are clamped into `[-1, n-1]`. -/
def pyAdjustIndex (n : Nat) (i : Int) : Int :=
  if i < 0 then (if i + n < 0 then -1 else i + n)
  else if (n : Int) ≤ i then (n : Int) - 1 else i

/-- Python's `l[a : b : -1]`: elements at indices `start, start-1, ..., stop+1`
after endpoint adjustment. -/
def pySliceRev (l : List α) (a b : Int) : List α :=
  let start := pyAdjustIndex l.length a
  let stop := pyAdjustIndex l.length b
  (List.range (start - stop).toNat).filterMap
    (fun k : Nat => l[(start - (k : Int)).toNat]?)

/-- The state updates of the `events_len < page_end_position` branch
(lines 93-103): `pages_mod = events_len % page_size`; when positive, the
first `pages_mod` records are queued and both window positions move right
by `pages_mod`; then both positions move left by `events_len` and
`page_count` is incremented. -/
def shiftWindow (ps pe pc : Int) (timeline_events : List α) :
    List α × Int × Int × Int :=
  let events_len : Int := timeline_events.length
  let pages_mod : Int := events_len % page_size
  if pages_mod > 0 then
    (timeline_events.take pages_mod.toNat,
     ps + pages_mod - events_len, pe + pages_mod - events_len, pc + 1)
  else ([], ps - events_len, pe - events_len, pc + 1)

/-- The `for file_path in files:` loop of `get_timeline` (lines 77-125),
including the code after the loop.  `files` is the sorted glob snapshot the
loop iterates over; `data_dir` is the live directory that `_remove_timeline`
mutates.  State: `events_queue`, `page_start_position`, `page_end_position`,
`page_count`. -/
def get_timeline_loop (page : Int) (files : List (StoredFile α))
    (data_dir : List (StoredFile α))
    (events_queue : List α) (page_start_position page_end_position page_count : Int) :
    CallResult α :=
  match files with
  | [] =>
    -- page_count += 1; if page_count < page: return []; return events_queue
    if page_count + 1 < page then ⟨.page [], data_dir, []⟩
    else ⟨.page events_queue, data_dir, []⟩
  | f :: rest =>
    match f.content with
    | .decodeErrCaught =>
      -- log.exception(...); _remove_timeline(file_path); continue
      let out := get_timeline_loop page rest (remove_timeline f.name data_dir)
        events_queue page_start_position page_end_position page_count
      ⟨out.ret, out.data_dir, f.name :: out.deleted⟩
    | .decodeErrUncaught => ⟨.raised, data_dir, []⟩
    | .nonList => ⟨.raised, data_dir, []⟩
    | .records evs =>
      -- timeline_events = yaml.safe_load(pf); timeline_events += events_queue
      let timeline_events := evs ++ events_queue
      let events_len : Int := timeline_events.length
      if events_len < page_end_position then
        match shiftWindow page_start_position page_end_position
            page_count timeline_events with
        | (q, ps, pe, pc) => get_timeline_loop page rest data_dir q ps pe pc
      else if page_start_position ≥ events_len then ⟨.page [], data_dir, []⟩
      else
        ⟨.page (pySliceRev timeline_events
            (-1 * page_start_position - 1) (-1 * page_end_position - 1)),
          data_dir, []⟩

/-- `get_timeline(before_datetime, page, data_dir)` (lines 19-125).
`data_dir = none` models a missing, `None` or inaccessible directory
(`os.path.exists` is false, line 39).  `before_datetime` is parsed at
lines 47-56 purely for logging — a parse failure is caught and only
warned about — so the model carries the argument but the result does not
depend on it, exactly as in the source. -/
def get_timeline (before_datetime : Option String) (page : Int)
    (data_dir : Option (List (StoredFile α))) : CallResult α :=
  match data_dir with
  | none => ⟨.page [], [], []⟩
  | some dir =>
    -- assert isinstance(page, int); assert page > 0
    if page ≤ 0 then ⟨.assertFailed, dir, []⟩
    else
      let page_start_position : Int := (page - 1) * page_size
      let page_end_position : Int := page_start_position + page_size
      let files := sortFiles (dir.filter globMatch)
      get_timeline_loop page files dir [] page_start_position page_end_position 1

/-! ### Properties of the name order and of `sortFiles` -/

lemma leChars_total (as bs : List Char) : leChars as bs = true ∨ leChars bs as = true := by
  induction as generalizing bs with
  | nil => left; rfl
  | cons a as ih =>
    cases bs with
    | nil => right; rfl
    | cons b bs =>
      rcases Nat.lt_trichotomy a.toNat b.toNat with h | h | h
      · left; simp [leChars, h]
      · rcases ih bs with h2 | h2
        · left; simp [leChars, h, h2]
        · right; simp [leChars, h.symm, h2]
      · right; simp [leChars, h]

lemma leChars_trans {as bs cs : List Char} (h1 : leChars as bs = true)
    (h2 : leChars bs cs = true) : leChars as cs = true := by
  induction as generalizing bs cs with
  | nil => rfl
  | cons a as ih =>
    cases bs with
    | nil => simp [leChars] at h1
    | cons b bs =>
      cases cs with
      | nil => simp [leChars] at h2
      | cons c cs =>
        simp only [leChars, Bool.or_eq_true, Bool.and_eq_true, decide_eq_true_eq] at h1 h2 ⊢
        rcases h1 with h1 | ⟨h1e, h1r⟩
        · rcases h2 with h2 | ⟨h2e, h2r⟩
          · left; omega
          · left; omega
        · rcases h2 with h2 | ⟨h2e, h2r⟩
          · left; omega
          · right; exact ⟨by omega, ih h1r h2r⟩

instance : IsTotal (StoredFile α) fileLe := ⟨fun a b => leChars_total _ _⟩

instance : IsTrans (StoredFile α) fileLe := ⟨fun _ _ _ => leChars_trans⟩

lemma sortFiles_sorted (l : List (StoredFile α)) : (sortFiles l).Sorted fileLe :=
  List.sorted_insertionSort fileLe l

lemma sortFiles_perm (l : List (StoredFile α)) : List.Perm (sortFiles l) l :=
  List.perm_insertionSort fileLe l

lemma orderedInsert_of_forall_le {x : StoredFile α} {m : List (StoredFile α)}
    (h : ∀ y ∈ m, fileLe x y) : List.orderedInsert fileLe x m = x :: m := by
  cases m with
  | nil => rfl
  | cons y ys =>
    simp only [List.orderedInsert, if_pos (h y (List.mem_cons_self y ys))]

lemma filter_orderedInsert (p : StoredFile α → Bool) (x : StoredFile α)
    (l : List (StoredFile α)) (hs : l.Sorted fileLe) :
    (List.orderedInsert fileLe x l).filter p =
      if p x then List.orderedInsert fileLe x (l.filter p) else l.filter p := by
  induction l with
  | nil =>
    simp only [List.orderedInsert, List.filter]
    cases hpx : p x <;> simp
  | cons g gs ih =>
    by_cases hxg : fileLe x g
    · simp only [List.orderedInsert, if_pos hxg]
      cases hpx : p x with
      | false => simp [List.filter, hpx]
      | true =>
        simp only [List.filter, hpx, if_true]
        rw [orderedInsert_of_forall_le]
        intro y hy
        rcases List.mem_cons.mp (List.mem_of_mem_filter hy) with rfl | hy'
        · exact hxg
        · exact leChars_trans hxg ((List.sorted_cons.mp hs).1 y hy')
    · simp only [List.orderedInsert, if_neg hxg]
      have ihs := ih (List.sorted_cons.mp hs).2
      cases hpx : p x with
      | false =>
        simp only [hpx] at ihs
        cases hpg : p g <;>
          simp [List.filter_cons, hpx, hpg, ihs]
      | true =>
        simp only [hpx] at ihs
        cases hpg : p g <;>
          simp [List.filter_cons, hpx, hpg, ihs, List.orderedInsert, if_neg hxg]

lemma sortFiles_filter (p : StoredFile α → Bool) (l : List (StoredFile α)) :
    sortFiles (l.filter p) = (sortFiles l).filter p := by
  induction l with
  | nil => rfl
  | cons x xs ih =>
    have hstep : sortFiles (x :: xs) = List.orderedInsert fileLe x (sortFiles xs) := rfl
    rw [hstep, filter_orderedInsert p x (sortFiles xs) (sortFiles_sorted xs)]
    cases hpx : p x with
    | false =>
      have hfc : (x :: xs).filter p = xs.filter p := by simp [List.filter_cons, hpx]
      rw [hfc, if_neg (by simp [hpx])]
      exact ih
    | true =>
      have hfc : (x :: xs).filter p = x :: xs.filter p := by
        simp [List.filter_cons, hpx]
      rw [hfc, if_pos rfl]
      have h2 : sortFiles (x :: xs.filter p) =
          List.orderedInsert fileLe x (sortFiles (xs.filter p)) := rfl
      rw [h2, ih]

/-! ### The slice `timeline_events[-1 : -6 : -1]` and the window shift -/

lemma range_filterMap_rev (m : Nat) (l : List α) (hm : m ≤ l.length) :
    (List.range m).filterMap (fun k => l[l.length - 1 - k]?) =
      (l.drop (l.length - m)).reverse := by
  induction m with
  | zero => simp
  | succ m ih =>
    rw [List.range_succ, List.filterMap_append, ih (by omega)]
    have hlt : l.length - 1 - m < l.length := by omega
    have hgd : l[l.length - 1 - m]? = some (l.get ⟨l.length - 1 - m, hlt⟩) := by
      rw [List.getElem?_eq_getElem hlt]
      rfl
    have hdrop : l.drop (l.length - (m + 1)) =
        l.get ⟨l.length - 1 - m, hlt⟩ :: l.drop (l.length - m) := by
      have h1 : l.length - (m + 1) < l.length := by omega
      rw [List.drop_eq_getElem_cons h1]
      have h2 : l.length - (m + 1) + 1 = l.length - m := by omega
      have h3 : l.length - (m + 1) = l.length - 1 - m := by omega
      rw [h2]
      congr 1
      · simp [h3]
    rw [hdrop, List.reverse_cons]
    simp [hgd]

lemma pySliceRev_zero_five (l : List α) (h5 : 5 ≤ l.length) :
    pySliceRev l (-1) (-6) = (l.drop (l.length - 5)).reverse := by
  have hstart : pyAdjustIndex l.length (-1) = (l.length : Int) - 1 := by
    unfold pyAdjustIndex
    rw [if_pos (by omega), if_neg (by omega)]
    omega
  have hstop : pyAdjustIndex l.length (-6) = (l.length : Int) - 6 := by
    unfold pyAdjustIndex
    rw [if_pos (by omega)]
    split_ifs with h <;> omega
  simp only [pySliceRev]
  rw [hstart, hstop]
  have hcnt : (((l.length : Int) - 1) - ((l.length : Int) - 6)).toNat = 5 := by omega
  rw [hcnt]
  have hfun : ∀ k ∈ List.range 5,
      l[(((l.length : Int) - 1) - (k : Nat)).toNat]? = l[l.length - 1 - k]? := by
    intro k hk
    have hk5 : k < 5 := List.mem_range.mp hk
    congr 1
    omega
  rw [List.filterMap_congr hfun]
  exact range_filterMap_rev 5 l h5

/-- The branch at lines 93-103, written without the `pages_mod > 0` case
split: the queue always becomes the first `events_len mod 5` records of the
merged list, and both window positions move left by
`events_len - events_len mod 5` (not by `events_len`). -/
lemma shiftWindow_eq (ps pe pc : Int) (tl : List α) :
    shiftWindow ps pe pc tl =
      (tl.take (tl.length % 5),
       ps + ((tl.length % 5 : Nat) : Int) - tl.length,
       pe + ((tl.length % 5 : Nat) : Int) - tl.length,
       pc + 1) := by
  simp only [shiftWindow, page_size]
  have hmod : (tl.length : Int) % 5 = ((tl.length % 5 : Nat) : Int) := by
    push_cast
    ring
  rw [hmod]
  split_ifs with h
  · have htn : (((tl.length % 5 : Nat) : Int)).toNat = tl.length % 5 := by omega
    rw [htn]
  · have h0 : tl.length % 5 = 0 := by omega
    rw [h0]
    simp

/-! ### Loop lemmas: what the walk returns and what it deletes -/

lemma filter_name_nil (d : List (StoredFile α)) :
    d.filter (fun f => decide (¬ f.name ∈ ([] : List String))) = d := by
  simp

/-- The returned value and the deletion log do not depend on the live
directory argument (the loop only writes to it, through `_remove_timeline`). -/
lemma loop_irrel (pg : Int) (files : List (StoredFile α)) :
    ∀ (d d' : List (StoredFile α)) (q : List α) (ps pe pc : Int),
      (get_timeline_loop pg files d q ps pe pc).ret =
        (get_timeline_loop pg files d' q ps pe pc).ret ∧
      (get_timeline_loop pg files d q ps pe pc).deleted =
        (get_timeline_loop pg files d' q ps pe pc).deleted := by
  induction files with
  | nil =>
    intro d d' q ps pe pc
    simp only [get_timeline_loop]
    split_ifs <;> exact ⟨rfl, rfl⟩
  | cons f rest ih =>
    intro d d' q ps pe pc
    cases hc : f.content with
    | decodeErrCaught =>
      simp only [get_timeline_loop, hc]
      exact ⟨(ih _ _ _ _ _ _).1, by rw [(ih _ _ _ _ _ _).2]⟩
    | decodeErrUncaught =>
      simp [get_timeline_loop, hc]
    | nonList =>
      simp [get_timeline_loop, hc]
    | records evs =>
      simp only [get_timeline_loop, hc]
      split_ifs with h1 h2
      · rw [shiftWindow_eq]
        exact ih _ _ _ _ _ _
      · exact ⟨rfl, rfl⟩
      · exact ⟨rfl, rfl⟩

lemma filter_remove (n : String) (D : List String) (d : List (StoredFile α)) :
    (remove_timeline n d).filter (fun f => decide (¬ f.name ∈ D)) =
      d.filter (fun f => decide (¬ f.name ∈ n :: D)) := by
  rw [remove_timeline, List.filter_filter]
  apply List.filter_congr
  intro f _
  have hiff : (f.name ∈ n :: D) ↔ (f.name = n ∨ f.name ∈ D) := List.mem_cons
  by_cases h1 : f.name = n
  · simp [h1]
  · by_cases h2 : f.name ∈ D <;> simp [h1, h2, hiff]

/-- One call deletes exactly the names it logs, all of which belong to
walked files whose content decodes with one of the four caught errors;
the surviving directory is the input minus those names, order kept. -/
lemma loop_dir_spec (pg : Int) (files : List (StoredFile α)) :
    ∀ (d : List (StoredFile α)) (q : List α) (ps pe pc : Int),
      ∃ D : List String,
        (get_timeline_loop pg files d q ps pe pc).deleted = D ∧
        (get_timeline_loop pg files d q ps pe pc).data_dir =
          d.filter (fun f => decide (¬ f.name ∈ D)) ∧
        ∀ nm ∈ D, ∃ f, f ∈ files ∧ f.name = nm ∧ f.content = Content.decodeErrCaught := by
  induction files with
  | nil =>
    intro d q ps pe pc
    refine ⟨[], ?_, ?_, by simp⟩ <;>
      · simp only [get_timeline_loop]
        split_ifs <;> simp [filter_name_nil]
  | cons f rest ih =>
    intro d q ps pe pc
    cases hc : f.content with
    | decodeErrCaught =>
      obtain ⟨D, h1, h2, h3⟩ := ih (remove_timeline f.name d) q ps pe pc
      refine ⟨f.name :: D, ?_, ?_, ?_⟩
      · simp only [get_timeline_loop, hc]
        rw [h1]
      · simp only [get_timeline_loop, hc]
        rw [h2, filter_remove]
      · intro nm hnm
        rcases List.mem_cons.mp hnm with rfl | hnm'
        · exact ⟨f, List.mem_cons_self f rest, rfl, hc⟩
        · obtain ⟨g, hg, hgn, hgc⟩ := h3 nm hnm'
          exact ⟨g, List.mem_cons_of_mem f hg, hgn, hgc⟩
    | decodeErrUncaught =>
      refine ⟨[], ?_, ?_, by simp⟩ <;> simp [get_timeline_loop, hc, filter_name_nil]
    | nonList =>
      refine ⟨[], ?_, ?_, by simp⟩ <;> simp [get_timeline_loop, hc, filter_name_nil]
    | records evs =>
      by_cases h1 : ((evs ++ q).length : Int) < pe
      · obtain ⟨D, hh1, hh2, hh3⟩ := ih d ((evs ++ q).take ((evs ++ q).length % 5))
          (ps + (((evs ++ q).length % 5 : Nat) : Int) - (evs ++ q).length)
          (pe + (((evs ++ q).length % 5 : Nat) : Int) - (evs ++ q).length) (pc + 1)
        refine ⟨D, ?_, ?_, ?_⟩
        · simp only [get_timeline_loop, hc]
          rw [if_pos h1, shiftWindow_eq]
          exact hh1
        · simp only [get_timeline_loop, hc]
          rw [if_pos h1, shiftWindow_eq]
          exact hh2
        · intro nm hnm
          obtain ⟨g, hg, hgn, hgc⟩ := hh3 nm hnm
          exact ⟨g, List.mem_cons_of_mem f hg, hgn, hgc⟩
      · refine ⟨[], ?_, ?_, by simp⟩ <;>
          · simp only [get_timeline_loop, hc]
            rw [if_neg h1]
            split_ifs <;> simp [filter_name_nil]

/-- Every name the loop logs as deleted belongs to a walked file whose
content failed with one of the caught decode errors. -/
lemma loop_deleted_names (pg : Int) (files d : List (StoredFile α)) (q : List α)
    (ps pe pc : Int) :
    ∀ nm ∈ (get_timeline_loop pg files d q ps pe pc).deleted,
      ∃ f, f ∈ files ∧ f.name = nm ∧ f.content = Content.decodeErrCaught := by
  obtain ⟨D, h1, _, h3⟩ := loop_dir_spec pg files d q ps pe pc
  rw [h1]
  exact h3

/-! ### Evaluation of a single-segment store -/

/-- A store with one segment file, named exactly as the glob pattern. -/
def tlFile (l : List α) : StoredFile α := ⟨"timeline-event-log.yaml", Content.records l⟩

lemma sort_single (l : List α) :
    sortFiles (List.filter globMatch [tlFile l]) = [tlFile l] := rfl

/-- Complete evaluation of `get_timeline` on one segment of `N` records when
the request window ends beyond `N` (`N < 5k`): the loop takes the shift
branch once, `page_count` finishes at `3`, and the call returns the first
`N mod 5` records — unreversed — unless `k > 3`, in which case it returns
the empty list. -/
lemma single_file_eval (l : List α) (k : Int) (hk : 0 < k)
    (hlen : (l.length : Int) < (k - 1) * page_size + page_size) :
    get_timeline none k (some [tlFile l]) =
      ⟨.page (if 3 < k then [] else l.take (l.length % 5)), [tlFile l], []⟩ := by
  simp only [get_timeline]
  rw [if_neg (by omega), sort_single]
  simp only [get_timeline_loop, tlFile, List.append_nil]
  rw [if_pos hlen, shiftWindow_eq]
  simp only [get_timeline_loop]
  have h3 : (1 : Int) + 1 + 1 = 3 := by norm_num
  by_cases hgt : (3 : Int) < k
  · rw [if_pos (by omega), if_pos hgt]
  · rw [if_neg (by omega), if_neg hgt]

/-- C1 (amended): for a single segment of `N` records and `k` with
`N ≤ 5(k-1)` (that is, `k > ceil(N/5)` or the window already past `N`),
`getPage(k)` is empty only when `k ≥ 4` or `5 ∣ N`; for `k ≤ 3` it returns
the oldest `N mod 5` records, oldest-first. -/
theorem claim_C1_exhaustion (l : List α) (k : Nat) (hk : 1 ≤ k)
    (hlen : l.length ≤ 5 * (k - 1)) :
    get_timeline none (k : Int) (some [tlFile l]) =
      ⟨.page (if k ≤ 3 then l.take (l.length % 5) else []), [tlFile l], []⟩ := by
  have h0 : (0 : Int) < (k : Int) := by omega
  have h1 : (l.length : Int) < ((k : Int) - 1) * page_size + page_size := by
    simp only [page_size]
    omega
  rw [single_file_eval l (k : Int) h0 h1]
  by_cases h3 : k ≤ 3
  · rw [if_neg (by omega), if_pos h3]
  · rw [if_pos (by omega), if_neg h3]

theorem claim_C1_exhaustion_witness :
    get_timeline none ((3 : Nat) : Int) (some [tlFile [1, 2, 3, 4, 5, 6, 7]]) =
      ⟨.page (if (3 : Nat) ≤ 3 then
          [1, 2, 3, 4, 5, 6, 7].take ([1, 2, 3, 4, 5, 6, 7].length % 5) else []),
       [tlFile [1, 2, 3, 4, 5, 6, 7]], []⟩ :=
  claim_C1_exhaustion [1, 2, 3, 4, 5, 6, 7] 3 (by decide) (by decide)

/-- C1 counterexample: one segment holds r1..r7, so `ceil(N/pageSize) = 2`,
yet `getPage(3)` is not empty — it returns `[r1, r2]`. -/
theorem claim_C1_counterexample :
    get_timeline none 3 (some [tlFile [1, 2, 3, 4, 5, 6, 7]]) =
      ⟨.page [1, 2], [tlFile [1, 2, 3, 4, 5, 6, 7]], []⟩ ∧
    RetVal.page ([1, 2] : List Nat) ≠ RetVal.page [] := by decide

/-- C2 (amended): for one segment of `N` records, `getPage(1)` returns the
last 5 records newest-first when `N ≥ 5` (when `0 < N < 5` it instead
returns all `N` records oldest-first, a case covered by the second part
with `ceil(N/5) = 1`); and `getPage(ceil(N/5))`, when `N mod 5 > 0` and
`N < 15`, returns the oldest `N mod 5` records oldest-first, not
newest-first. -/
theorem claim_C2_single_segment (l : List α) :
    (5 ≤ l.length →
      get_timeline none 1 (some [tlFile l]) =
        ⟨.page ((l.drop (l.length - 5)).reverse), [tlFile l], []⟩) ∧
    (0 < l.length % 5 → l.length < 15 →
      get_timeline none (((l.length + 4) / 5 : Nat) : Int) (some [tlFile l]) =
        ⟨.page (l.take (l.length % 5)), [tlFile l], []⟩) := by
  constructor
  · intro h5
    simp only [get_timeline]
    rw [if_neg (by norm_num), sort_single]
    simp only [get_timeline_loop, tlFile, List.append_nil]
    rw [if_neg (by simp only [page_size]; omega)]
    rw [if_neg (by simp only [page_size]; omega)]
    have ha : -1 * ((1 - 1) * page_size) - 1 = (-1 : Int) := by
      simp [page_size]
    have hb : -1 * ((1 - 1) * page_size + page_size) - 1 = (-6 : Int) := by
      simp [page_size]
    rw [ha, hb, pySliceRev_zero_five l h5]
  · intro hm h15
    have h0 : (0 : Int) < (((l.length + 4) / 5 : Nat) : Int) := by omega
    have h1 : (l.length : Int) <
        ((((l.length + 4) / 5 : Nat) : Int) - 1) * page_size + page_size := by
      simp only [page_size]
      omega
    rw [single_file_eval l _ h0 h1]
    rw [if_neg (by omega)]

theorem claim_C2_single_segment_witness :
    (get_timeline none 1 (some [tlFile [1, 2, 3, 4, 5, 6, 7]]) =
      ⟨.page (([1, 2, 3, 4, 5, 6, 7].drop ([1, 2, 3, 4, 5, 6, 7].length - 5)).reverse),
       [tlFile [1, 2, 3, 4, 5, 6, 7]], []⟩) ∧
    (get_timeline none ((([1, 2, 3, 4, 5, 6, 7].length + 4) / 5 : Nat) : Int)
        (some [tlFile [1, 2, 3, 4, 5, 6, 7]]) =
      ⟨.page ([1, 2, 3, 4, 5, 6, 7].take ([1, 2, 3, 4, 5, 6, 7].length % 5)),
       [tlFile [1, 2, 3, 4, 5, 6, 7]], []⟩) :=
  ⟨(claim_C2_single_segment [1, 2, 3, 4, 5, 6, 7]).1 (by decide),
   (claim_C2_single_segment [1, 2, 3, 4, 5, 6, 7]).2 (by decide) (by decide)⟩

/-- C2 counterexample: for r1..r7, `ceil(N/5) = 2`, and `getPage(2)` returns
`[r1, r2]` — the oldest remainder in oldest-first order — not `[r2, r1]`. -/
theorem claim_C2_counterexample :
    get_timeline none 2 (some [tlFile [1, 2, 3, 4, 5, 6, 7]]) =
      ⟨.page [1, 2], [tlFile [1, 2, 3, 4, 5, 6, 7]], []⟩ ∧
    RetVal.page ([1, 2] : List Nat) ≠ RetVal.page [2, 1] := by decide

/-! ### Claims about the merge order, the window shift, and the boundaries -/

/-- An older segment (`.1` sorts before `.2`). -/
def tlFile1 (l : List α) : StoredFile α := ⟨"timeline-event-log.yaml.1", Content.records l⟩

/-- The newer segment of a two-segment store. -/
def tlFile2 (l : List α) : StoredFile α := ⟨"timeline-event-log.yaml.2", Content.records l⟩

lemma sort_pair (l1 l2 : List α) :
    sortFiles (List.filter globMatch [tlFile1 l1, tlFile2 l2]) =
      [tlFile1 l1, tlFile2 l2] := rfl

/-- C3 (amended): the carried remainder is appended *after* the newer
segment's records (`timeline_events += events_queue`), so a page that
straddles a segment boundary comes back as `(seg2 ++ remainder).reverse`:
the older remainder records appear first (each block reversed), not in
globally newest-first order. -/
theorem claim_C3_boundary_merge (l1 l2 : List α) (h0 : 0 < l1.length)
    (h5 : l1.length < 5) (hsum : l1.length + l2.length = 5) :
    get_timeline none 1 (some [tlFile1 l1, tlFile2 l2]) =
      ⟨.page ((l2 ++ l1).reverse), [tlFile1 l1, tlFile2 l2], []⟩ := by
  simp only [get_timeline]
  rw [if_neg (by norm_num), sort_pair]
  simp only [get_timeline_loop, tlFile1, List.append_nil]
  rw [if_pos (by simp only [page_size]; omega), shiftWindow_eq]
  have hq : l1.take (l1.length % 5) = l1 := by
    rw [Nat.mod_eq_of_lt h5, List.take_length]
  rw [hq]
  simp only [get_timeline_loop, tlFile2]
  rw [if_neg (by simp only [page_size, List.length_append]; omega)]
  rw [if_neg (by simp only [page_size, List.length_append]; omega)]
  have ha : -1 * ((1 - 1) * page_size + ((l1.length % 5 : Nat) : Int) - l1.length) - 1 =
      (-1 : Int) := by
    simp only [page_size]
    omega
  have hb : -1 * ((1 - 1) * page_size + page_size + ((l1.length % 5 : Nat) : Int)
      - l1.length) - 1 = (-6 : Int) := by
    simp only [page_size]
    omega
  rw [ha, hb, pySliceRev_zero_five (l2 ++ l1) (by simp only [List.length_append]; omega)]
  have hd : (l2 ++ l1).length - 5 = 0 := by
    simp only [List.length_append]
    omega
  rw [hd, List.drop_zero]

theorem claim_C3_boundary_merge_witness :
    get_timeline none 1 (some [tlFile1 [1, 2, 3], tlFile2 [4, 5]]) =
      ⟨.page ((([4, 5] : List Nat) ++ [1, 2, 3]).reverse),
       [tlFile1 [1, 2, 3], tlFile2 [4, 5]], []⟩ :=
  claim_C3_boundary_merge [1, 2, 3] [4, 5] (by decide) (by decide) (by decide)

/-- C3 counterexample: with segments `[r1,r2,r3]` (older) and `[r4,r5]`
(newer), `getPage(1)` is `[r3,r2,r1,r5,r4]`, not the globally newest-first
`[r5,r4,r3,r2,r1]`: the carried remainder was treated as newer, not older. -/
theorem claim_C3_counterexample :
    get_timeline none 1 (some [tlFile1 [1, 2, 3], tlFile2 [4, 5]]) =
      ⟨.page [3, 2, 1, 5, 4], [tlFile1 [1, 2, 3], tlFile2 [4, 5]], []⟩ ∧
    RetVal.page ([3, 2, 1, 5, 4] : List Nat) ≠ RetVal.page [5, 4, 3, 2, 1] := by
  decide

/-- C4 (amended): the shift branch carries forward the first
`segLen mod pageSize` records of the merged list and moves the window left
by `segLen - segLen mod pageSize` — not by `segLen` — incrementing
`page_count`; the walk then continues with the next segment. -/
theorem claim_C4_window_shift (ps pe pc : Int) (tl : List α) :
    shiftWindow ps pe pc tl =
      (tl.take (tl.length % 5),
       ps - ((tl.length : Int) - ((tl.length % 5 : Nat) : Int)),
       pe - ((tl.length : Int) - ((tl.length % 5 : Nat) : Int)),
       pc + 1) := by
  rw [shiftWindow_eq]
  simp only [Prod.mk.injEq]
  exact ⟨trivial, by ring, by ring, trivial⟩

/-- C4 counterexample: merged length 7 with window `[5,10)`: the claim says
the window start becomes `5 - 7 = -2`; the code leaves it at `0`
(shift by `7 - 7 mod 5 = 5`). -/
theorem claim_C4_counterexample :
    shiftWindow 5 10 1 ([1, 2, 3, 4, 5, 6, 7] : List Nat) = ([1, 2], 0, 5, 2) ∧
    (0 : Int) ≠ 5 - 7 := by decide

/-- C6: a missing, `None`, or inaccessible `dataDir` (any listing failure is
folded into the failed `os.path.exists` check) yields the empty page for
every page number, with nothing raised and nothing deleted. -/
theorem claim_C6_missing_dir (b : Option String) (p : Int) :
    get_timeline (α := α) b p none = ⟨.page [], [], []⟩ := rfl

/-- C7 (amended): when `dataDir` exists, every non-positive page number is
rejected by the assertion before any file is read or deleted; but when
`dataDir` is missing the empty result is returned *before* validation, so
rejection is not unconditional (see the counterexample). -/
theorem claim_C7_contract (b : Option String) (p : Int) (dir : List (StoredFile α))
    (hp : p ≤ 0) :
    get_timeline b p (some dir) = ⟨.assertFailed, dir, []⟩ := by
  simp only [get_timeline]
  rw [if_pos hp]

theorem claim_C7_contract_witness :
    get_timeline none 0 (some ([] : List (StoredFile Nat))) = ⟨.assertFailed, [], []⟩ :=
  claim_C7_contract none 0 [] (by decide)

/-- C7 counterexample: `getPage(0)` against a missing `dataDir` returns the
empty page instead of being rejected — the existence check at line 39 runs
before the assertions at lines 44-45. -/
theorem claim_C7_counterexample :
    get_timeline (α := Nat) none 0 none = ⟨.page [], [], []⟩ ∧
    RetVal.page ([] : List Nat) ≠ RetVal.assertFailed := by decide

/-- C8: the `before_datetime` cursor is parsed only for logging (lines
47-56) and never applied to slicing, so every call — whatever the cursor
string, parseable or not — returns exactly what the cursor-less call
returns, with the same deletions. -/
theorem claim_C8_cursor_independent (b : Option String) (p : Int)
    (d : Option (List (StoredFile α))) :
    get_timeline b p d = get_timeline none p d := rfl

/-! ### C5: which decode failures are absorbed -/

/-- C5 (amended): for a segment whose decoding raises one of the four
*caught* classes (`ReaderError`, `ScannerError`, `ComposerError`,
`ConstructorError`), the failure never reaches the caller: the returned
value is exactly that of the same walk without the segment — same carried
remainder, same window positions, same page count — and the segment's name
is recorded as deleted.  (Parser-level errors and non-sequence content are
*not* in this class: they propagate, see the counterexample.) -/
theorem claim_C5_caught_decode_failure (pre post : List (StoredFile α))
    (f : StoredFile α) (d d' : List (StoredFile α)) (q : List α)
    (ps pe pc pg : Int) (hc : f.content = Content.decodeErrCaught) :
    (get_timeline_loop pg (pre ++ f :: post) d q ps pe pc).ret =
      (get_timeline_loop pg (pre ++ post) d' q ps pe pc).ret ∧
    f.name ∈ (get_timeline_loop pg (f :: post) d q ps pe pc).deleted := by
  constructor
  · induction pre generalizing q ps pe pc d d' with
    | nil =>
      simp only [List.nil_append, get_timeline_loop, hc]
      exact (loop_irrel pg post (remove_timeline f.name d) d' q ps pe pc).1
    | cons g pre ih =>
      cases hgc : g.content with
      | decodeErrCaught =>
        simp only [List.cons_append, get_timeline_loop, hgc]
        apply ih
      | decodeErrUncaught =>
        simp only [List.cons_append, get_timeline_loop, hgc]
      | nonList =>
        simp only [List.cons_append, get_timeline_loop, hgc]
      | records evs =>
        simp only [List.cons_append, get_timeline_loop, hgc]
        split_ifs with h1
        · rw [shiftWindow_eq]
          apply ih
        · rfl
        · rfl
  · simp only [get_timeline_loop, hc]
    exact List.mem_cons_self f.name _

theorem claim_C5_caught_decode_failure_witness :
    ((get_timeline_loop 1 ([] ++ (⟨"timeline-event-log.yaml.1",
        Content.decodeErrCaught⟩ : StoredFile Nat) :: [tlFile2 [1, 2, 3, 4, 5]]) [] []
        0 5 1).ret =
      (get_timeline_loop 1 ([] ++ [tlFile2 [1, 2, 3, 4, 5]]) [] [] 0 5 1).ret) ∧
    ("timeline-event-log.yaml.1" ∈
      (get_timeline_loop 1 ((⟨"timeline-event-log.yaml.1",
        Content.decodeErrCaught⟩ : StoredFile Nat) :: [tlFile2 [1, 2, 3, 4, 5]]) [] []
        0 5 1).deleted) :=
  claim_C5_caught_decode_failure [] [tlFile2 [1, 2, 3, 4, 5]]
    ⟨"timeline-event-log.yaml.1", Content.decodeErrCaught⟩ [] [] [] 0 5 1 1 rfl

/-- C5 counterexample: a segment whose content is *not a record sequence*
(e.g. a YAML mapping or `None`) makes `timeline_events += events_queue`
raise an uncaught `TypeError`: the call raises instead of returning, and
the segment is not deleted — contradicting the claim that such content is
absorbed like the caught decode errors. -/
theorem claim_C5_counterexample :
    get_timeline (α := Nat) none 1 (some [⟨"timeline-event-log.yaml", Content.nonList⟩]) =
      ⟨.raised, [⟨"timeline-event-log.yaml", Content.nonList⟩], []⟩ ∧
    (RetVal.raised : RetVal Nat) ≠ RetVal.page [] := by decide

/-! ### C9 and C10: idempotence and the frame of the side effects -/

lemma get_timeline_some_eq (b : Option String) (p : Int) (dir : List (StoredFile α))
    (hp : ¬ p ≤ 0) :
    get_timeline b p (some dir) =
      get_timeline_loop p (sortFiles (dir.filter globMatch)) dir []
        ((p - 1) * page_size) ((p - 1) * page_size + page_size) 1 := by
  simp only [get_timeline]
  rw [if_neg hp]

lemma filter_swap (p q : StoredFile α → Bool) (l : List (StoredFile α)) :
    (l.filter p).filter q = (l.filter q).filter p := by
  rw [List.filter_filter, List.filter_filter]
  exact List.filter_congr fun a _ => Bool.and_comm _ _

/-- Walking the same snapshot again, minus exactly the names deleted on the
first walk, returns the same value and deletes nothing — provided file
names are distinct (as they are in a real directory). -/
lemma loop_idem (pg : Int) (files : List (StoredFile α)) :
    ∀ (d d2 : List (StoredFile α)) (q : List α) (ps pe pc : Int),
      (files.map StoredFile.name).Nodup →
      (get_timeline_loop pg
          (files.filter (fun f =>
            decide (¬ f.name ∈ (get_timeline_loop pg files d q ps pe pc).deleted)))
          d2 q ps pe pc).ret = (get_timeline_loop pg files d q ps pe pc).ret ∧
      (get_timeline_loop pg
          (files.filter (fun f =>
            decide (¬ f.name ∈ (get_timeline_loop pg files d q ps pe pc).deleted)))
          d2 q ps pe pc).deleted = [] := by
  induction files with
  | nil =>
    intro d d2 q ps pe pc _
    simp only [List.filter_nil]
    constructor
    · exact (loop_irrel pg [] d2 d q ps pe pc).1
    · simp only [get_timeline_loop]
      split_ifs <;> rfl
  | cons f rest ih =>
    intro d d2 q ps pe pc hnd
    have hnd1 : f.name ∉ rest.map StoredFile.name := (List.nodup_cons.mp hnd).1
    have hnd2 : (rest.map StoredFile.name).Nodup := (List.nodup_cons.mp hnd).2
    cases hc : f.content with
    | decodeErrCaught =>
      have hdel : (get_timeline_loop pg (f :: rest) d q ps pe pc).deleted =
          f.name :: (get_timeline_loop pg rest (remove_timeline f.name d)
            q ps pe pc).deleted := by
        simp only [get_timeline_loop, hc]
      rw [hdel]
      have hfil : (f :: rest).filter (fun g =>
          decide (¬ g.name ∈ f.name :: (get_timeline_loop pg rest
            (remove_timeline f.name d) q ps pe pc).deleted)) =
          rest.filter (fun g =>
            decide (¬ g.name ∈ (get_timeline_loop pg rest
              (remove_timeline f.name d) q ps pe pc).deleted)) := by
        rw [List.filter_cons_of_neg (by simp)]
        apply List.filter_congr
        intro g hg
        have hgn : g.name ≠ f.name := by
          intro h
          exact hnd1 (h ▸ List.mem_map_of_mem StoredFile.name hg)
        simp [List.mem_cons, hgn]
      rw [hfil]
      have hret : (get_timeline_loop pg (f :: rest) d q ps pe pc).ret =
          (get_timeline_loop pg rest (remove_timeline f.name d) q ps pe pc).ret := by
        simp only [get_timeline_loop, hc]
      rw [hret]
      exact ih (remove_timeline f.name d) d2 q ps pe pc hnd2
    | decodeErrUncaught =>
      have hdel : (get_timeline_loop pg (f :: rest) d q ps pe pc).deleted = [] := by
        simp only [get_timeline_loop, hc]
      rw [hdel]
      have hfil : (f :: rest).filter (fun g =>
          decide (¬ g.name ∈ ([] : List String))) = f :: rest := filter_name_nil _
      rw [hfil]
      constructor
      · exact (loop_irrel pg (f :: rest) d2 d q ps pe pc).1
      · simp only [get_timeline_loop, hc]
    | nonList =>
      have hdel : (get_timeline_loop pg (f :: rest) d q ps pe pc).deleted = [] := by
        simp only [get_timeline_loop, hc]
      rw [hdel]
      have hfil : (f :: rest).filter (fun g =>
          decide (¬ g.name ∈ ([] : List String))) = f :: rest := filter_name_nil _
      rw [hfil]
      constructor
      · exact (loop_irrel pg (f :: rest) d2 d q ps pe pc).1
      · simp only [get_timeline_loop, hc]
    | records evs =>
      by_cases h1 : ((evs ++ q).length : Int) < pe
      · have hstep : ∀ (dd rs : List (StoredFile α)),
            get_timeline_loop pg (f :: rs) dd q ps pe pc =
              get_timeline_loop pg rs dd ((evs ++ q).take ((evs ++ q).length % 5))
                (ps + (((evs ++ q).length % 5 : Nat) : Int) - (evs ++ q).length)
                (pe + (((evs ++ q).length % 5 : Nat) : Int) - (evs ++ q).length)
                (pc + 1) := by
          intro dd rs
          simp only [get_timeline_loop, hc]
          rw [if_pos h1, shiftWindow_eq]
        rw [hstep d rest]
        have hnotin : f.name ∉ (get_timeline_loop pg rest d
            ((evs ++ q).take ((evs ++ q).length % 5))
            (ps + (((evs ++ q).length % 5 : Nat) : Int) - (evs ++ q).length)
            (pe + (((evs ++ q).length % 5 : Nat) : Int) - (evs ++ q).length)
            (pc + 1)).deleted := by
          intro hmem
          obtain ⟨g, hg, hgn, _⟩ := loop_deleted_names pg rest d _ _ _ _ f.name hmem
          exact hnd1 (hgn ▸ List.mem_map_of_mem StoredFile.name hg)
        have hfil : (f :: rest).filter (fun g =>
            decide (¬ g.name ∈ (get_timeline_loop pg rest d
              ((evs ++ q).take ((evs ++ q).length % 5))
              (ps + (((evs ++ q).length % 5 : Nat) : Int) - (evs ++ q).length)
              (pe + (((evs ++ q).length % 5 : Nat) : Int) - (evs ++ q).length)
              (pc + 1)).deleted)) =
            f :: rest.filter (fun g =>
              decide (¬ g.name ∈ (get_timeline_loop pg rest d
                ((evs ++ q).take ((evs ++ q).length % 5))
                (ps + (((evs ++ q).length % 5 : Nat) : Int) - (evs ++ q).length)
                (pe + (((evs ++ q).length % 5 : Nat) : Int) - (evs ++ q).length)
                (pc + 1)).deleted)) := by
          rw [List.filter_cons_of_pos (by simpa using hnotin)]
        rw [hfil, hstep d2 _]
        exact ih d d2 _ _ _ _ hnd2
      · have hsame : ∀ (dd : List (StoredFile α)),
            (get_timeline_loop pg (f :: rest) dd q ps pe pc).ret =
              (if ps ≥ ((evs ++ q).length : Int) then (RetVal.page ([] : List α))
               else .page (pySliceRev (evs ++ q) (-1 * ps - 1) (-1 * pe - 1))) ∧
            (get_timeline_loop pg (f :: rest) dd q ps pe pc).deleted = [] := by
          intro dd
          simp only [get_timeline_loop, hc]
          rw [if_neg h1]
          split_ifs <;> exact ⟨rfl, rfl⟩
        rw [(hsame d).2]
        have hfil : (f :: rest).filter (fun g =>
            decide (¬ g.name ∈ ([] : List String))) = f :: rest := filter_name_nil _
        rw [hfil, (hsame d2).1, (hsame d).1]
        exact ⟨rfl, (hsame d2).2⟩

/-- C9: two consecutive `getPage(1)` calls with no external writes return
the same value — even when the first call deleted corrupt segments: the
second call, over the surviving directory, also deletes nothing and leaves
the directory unchanged.  File names are assumed distinct, as they are in
a real directory. -/
theorem claim_C9_idempotent (dir : List (StoredFile α)) (b : Option String)
    (hnd : (dir.map StoredFile.name).Nodup) :
    (get_timeline b 1 (some ((get_timeline b 1 (some dir)).data_dir))).ret =
      (get_timeline b 1 (some dir)).ret ∧
    (get_timeline b 1 (some ((get_timeline b 1 (some dir)).data_dir))).data_dir =
      (get_timeline b 1 (some dir)).data_dir ∧
    (get_timeline b 1 (some ((get_timeline b 1 (some dir)).data_dir))).deleted = [] := by
  have hp : ¬ (1 : Int) ≤ 0 := by norm_num
  obtain ⟨D, hD1, hD2, hD3⟩ := loop_dir_spec 1 (sortFiles (dir.filter globMatch)) dir []
    (((1 : Int) - 1) * page_size) (((1 : Int) - 1) * page_size + page_size) 1
  have hfiles1 : (List.map StoredFile.name (sortFiles (dir.filter globMatch))).Nodup := by
    have hsub : ((dir.filter globMatch).map StoredFile.name).Nodup :=
      hnd.sublist (List.Sublist.map StoredFile.name (List.filter_sublist dir))
    exact ((sortFiles_perm (dir.filter globMatch)).map StoredFile.name).nodup_iff.mpr hsub
  have hidem := loop_idem 1 (sortFiles (dir.filter globMatch)) dir
    (dir.filter (fun f => decide (¬ f.name ∈ D))) []
    (((1 : Int) - 1) * page_size) (((1 : Int) - 1) * page_size + page_size) 1 hfiles1
  rw [hD1] at hidem
  have hchain : sortFiles ((dir.filter (fun f => decide (¬ f.name ∈ D))).filter globMatch) =
      (sortFiles (dir.filter globMatch)).filter (fun f => decide (¬ f.name ∈ D)) := by
    rw [filter_swap, sortFiles_filter]
  obtain ⟨D2, hK1, hK2, hK3⟩ := loop_dir_spec 1
    ((sortFiles (dir.filter globMatch)).filter (fun f => decide (¬ f.name ∈ D)))
    (dir.filter (fun f => decide (¬ f.name ∈ D))) []
    (((1 : Int) - 1) * page_size) (((1 : Int) - 1) * page_size + page_size) 1
  have hD2nil : D2 = [] := hK1.symm.trans hidem.2
  refine ⟨?_, ?_, ?_⟩
  · rw [get_timeline_some_eq b 1 dir hp, hD2, get_timeline_some_eq b 1 _ hp, hchain]
    exact hidem.1
  · rw [get_timeline_some_eq b 1 dir hp, hD2, get_timeline_some_eq b 1 _ hp, hchain]
    rw [hK2, hD2nil, filter_name_nil]
  · rw [get_timeline_some_eq b 1 dir hp, hD2, get_timeline_some_eq b 1 _ hp, hchain]
    exact hidem.2

/-- A small concrete store: one corrupt segment followed by a good one. -/
def demoDir : List (StoredFile Nat) :=
  [⟨"timeline-event-log.yaml.1", Content.decodeErrCaught⟩,
   ⟨"timeline-event-log.yaml.2", Content.records [1, 2, 3, 4, 5, 6]⟩]

theorem claim_C9_idempotent_witness :
    (get_timeline none 1 (some ((get_timeline none 1 (some demoDir)).data_dir))).ret =
      (get_timeline none 1 (some demoDir)).ret ∧
    (get_timeline none 1 (some ((get_timeline none 1 (some demoDir)).data_dir))).data_dir =
      (get_timeline none 1 (some demoDir)).data_dir ∧
    (get_timeline none 1 (some ((get_timeline none 1 (some demoDir)).data_dir))).deleted =
      [] :=
  claim_C9_idempotent demoDir none (by decide)

/-- C10: the only mutation a call performs is the deletion of some set `D`
of file names, each of which names a store file matching the glob pattern
whose content decodes with one of the caught YAML errors on this call; the
directory after the call is exactly the original minus `D`, in order —
every other file, matching or not, decoded or not reached, is untouched. -/
theorem claim_C10_frame (b : Option String) (p : Int) (dir : List (StoredFile α)) :
    ∃ D : List String,
      (get_timeline b p (some dir)).data_dir =
        dir.filter (fun f => decide (¬ f.name ∈ D)) ∧
      ∀ nm ∈ D, ∃ f, f ∈ dir ∧ f.name = nm ∧ globMatch f = true ∧
        f.content = Content.decodeErrCaught := by
  by_cases hp : p ≤ 0
  · refine ⟨[], ?_, by simp⟩
    simp only [get_timeline]
    rw [if_pos hp]
    exact (filter_name_nil dir).symm
  · rw [get_timeline_some_eq b p dir hp]
    obtain ⟨D, _, h2, h3⟩ := loop_dir_spec p (sortFiles (dir.filter globMatch)) dir []
      ((p - 1) * page_size) ((p - 1) * page_size + page_size) 1
    refine ⟨D, h2, ?_⟩
    intro nm hnm
    obtain ⟨f, hf, hfn, hfc⟩ := h3 nm hnm
    have hf2 : f ∈ dir.filter globMatch :=
      ((sortFiles_perm (dir.filter globMatch)).mem_iff).mp hf
    exact ⟨f, List.mem_of_mem_filter hf2, hfn, List.of_mem_filter hf2, hfc⟩

theorem claim_C10_frame_witness :
    ∃ D : List String,
      (get_timeline none 1 (some demoDir)).data_dir =
        demoDir.filter (fun f => decide (¬ f.name ∈ D)) ∧
      ∀ nm ∈ D, ∃ f, f ∈ demoDir ∧ f.name = nm ∧ globMatch f = true ∧
        f.content = Content.decodeErrCaught :=
  claim_C10_frame none 1 demoDir

/-! ### Concrete evaluations of the embedding (the spec's worked example) -/

/-- The spec's worked example: one segment holding r1..r7, r1 oldest. -/
def seg7 : StoredFile Nat := ⟨"timeline-event-log.yaml", .records [1, 2, 3, 4, 5, 6, 7]⟩

example : get_timeline none 1 (some [seg7]) =
    ⟨.page [7, 6, 5, 4, 3], [seg7], []⟩ := by decide

example : get_timeline none 2 (some [seg7]) =
    ⟨.page [1, 2], [seg7], []⟩ := by decide

example : get_timeline none 3 (some [seg7]) =
    ⟨.page [1, 2], [seg7], []⟩ := by decide

example : get_timeline none 4 (some [seg7]) =
    ⟨.page [], [seg7], []⟩ := by decide

example : get_timeline none 1
    (some [⟨"timeline-event-log.yaml.1", .records [1, 2, 3]⟩,
           ⟨"timeline-event-log.yaml.2", .records [4, 5]⟩]) =
    ⟨.page [3, 2, 1, 5, 4],
     [⟨"timeline-event-log.yaml.1", .records [1, 2, 3]⟩,
      ⟨"timeline-event-log.yaml.2", .records [4, 5]⟩], []⟩ := by decide

example : get_timeline (α := Nat) none 1
    (some [⟨"timeline-event-log.yaml.1", .decodeErrCaught⟩,
           ⟨"timeline-event-log.yaml.2", .records [1, 2, 3, 4, 5, 6]⟩]) =
    ⟨.page [6, 5, 4, 3, 2],
     [⟨"timeline-event-log.yaml.2", .records [1, 2, 3, 4, 5, 6]⟩],
     ["timeline-event-log.yaml.1"]⟩ := by decide

example : get_timeline (α := Nat) none 1
    (some [⟨"timeline-event-log.yaml", .nonList⟩]) =
    ⟨.raised, [⟨"timeline-event-log.yaml", .nonList⟩], []⟩ := by decide

example : get_timeline (α := Nat) none 0 none = ⟨.page [], [], []⟩ := by decide

example : get_timeline (α := Nat) none 0 (some []) = ⟨.assertFailed, [], []⟩ := by decide

example : get_timeline none 1 (some [⟨"other.yaml", .records [1, 2]⟩]) =
    ⟨.page [], [⟨"other.yaml", .records [1, 2]⟩], []⟩ := by decide

example : get_timeline none 1 (some [⟨"timeline-event-log.yaml", .records [1, 2, 3]⟩]) =
    ⟨.page [1, 2, 3], [⟨"timeline-event-log.yaml", .records [1, 2, 3]⟩], []⟩ := by decide
